import Mathlib

/-!
# Verification of the neovide editor core (`src/editor.rs`)

A shallow embedding of the editor state and its operations:

* `Colors`, `Style`, `GridCell`, `DrawCommand`, `CursorType`, `Editor` — the
  data model (`editor.rs` lines 7-68);
* `Editor.build_draw_commands` — the run-length compaction pass (lines 86-129);
* `Editor.draw` — the line-update applier (lines 131-155);
* `scrollGrid` / `Editor.scroll_region` — the scroll-region shifter
  (lines 157-204);
* `Editor.clear`, `Editor.resize`, `Editor.define_style` — lifecycle
  operations (lines 207-219).

Conventions: Rust `usize`/`u64` indices become `Nat`, the `isize` scroll
parameters become `Int`; a `panic!`/`expect` failure is modelled by an
operation returning `none`; the `println!` diagnostic in `draw` is modelled
as a returned `Bool` flag; the external `nvim.ui_try_resize` round-trip in
`resize` is modelled by an explicit host-response parameter.  The external
skia type `Color4f` carries four channel values on which the editor never
computes (it only copies and compares them); its channels are abstracted to
integers so that equality is decidable.
-/

/-- The external skia `Color4f` type (never computed on by the editor, only
copied and compared); its four float channels are abstracted to integers in
half-units (so `0.5` is representable) with decidable equality. -/
structure Color4f where
  red : Int
  green : Int
  blue : Int
  alpha : Int
deriving DecidableEq, Repr

/-- `skulpin::skia_safe::colors::WHITE` (channels in half-units). -/
def COLOR_WHITE : Color4f := ⟨2, 2, 2, 2⟩

/-- `skulpin::skia_safe::colors::BLACK` (channels in half-units). -/
def COLOR_BLACK : Color4f := ⟨0, 0, 0, 2⟩

/-- `skulpin::skia_safe::colors::GREY` (channels in half-units). -/
def COLOR_GREY : Color4f := ⟨1, 1, 1, 2⟩

/-- `editor.rs` lines 7-12: the `Colors` struct. -/
structure Colors where
  foreground : Option Color4f
  background : Option Color4f
  special : Option Color4f
deriving DecidableEq, Repr

/-- `editor.rs` lines 14-31: the `Style` struct. -/
structure Style where
  colors : Colors
  reverse : Bool
  italic : Bool
  bold : Bool
  strikethrough : Bool
  underline : Bool
  undercurl : Bool
  blend : Nat
deriving DecidableEq, Repr

/-- `Style::new(colors)` from the `#[derive(new)]` with `#[new(default)]` on
every attribute field: all flags `false`, blend `0`. -/
def Style.new (colors : Colors) : Style :=
  ⟨colors, false, false, false, false, false, false, 0⟩

/-- `editor.rs` lines 33-40: the `GridLineCell` struct (one line-update
event).  `text` is the character run (Rust `String` as `List Char`). -/
structure GridLineCell where
  grid : Nat
  text : List Char
  row : Nat
  col_start : Nat
  style_id : Option Nat
deriving DecidableEq, Repr

/-- `editor.rs` line 42: `type GridCell = Option<(char, Style)>`. -/
def GridCell := Option (Char × Style)
deriving DecidableEq, Repr

/-- `editor.rs` lines 44-50: the `DrawCommand` struct. -/
structure DrawCommand where
  text : List Char
  row : Nat
  col_start : Nat
  style : Style
deriving DecidableEq, Repr

/-- `editor.rs` lines 52-57: the `CursorType` enum. -/
inductive CursorType where
  | block
  | horizontal
  | vertical
deriving DecidableEq, Repr

/-- `editor.rs` lines 59-68: the `Editor` struct.  The `nvim : Neovim`
RPC handle is external and omitted; `defined_styles : HashMap<u64, Style>`
is modelled as a lookup function. -/
structure Editor where
  grid : List (List GridCell)
  cursor_pos : Nat × Nat
  cursor_type : CursorType
  size : Nat × Nat
  default_colors : Colors
  defined_styles : Nat → Option Style
  previous_style : Option Style

/-- Look up cell `(i, j)` of a grid: `some cell` when the indices are in
bounds (the cell itself may be the empty cell `none`), `none` otherwise. -/
def getc (grid : List (List GridCell)) (i j : Nat) : Option GridCell :=
  (grid.get? i).bind (fun row => row.get? j)

/-! ## Scroll region shifter (`editor.rs` lines 157-204) -/

/-- `editor.rs` lines 158-164: the row adjustment of the source rectangle in
`scroll_region`. -/
def adjust_rows (top bot rows : Int) : Int × Int :=
  if rows > 0 then (top + rows, bot)
  else if rows < 0 then (top, bot + rows)
  else (top, bot)

/-- `editor.rs` lines 166-172: the column adjustment of the source rectangle
in `scroll_region`.  Note that the second branch tests `rows < 0`, exactly as
the source does. -/
def adjust_cols (left right rows cols : Int) : Int × Int :=
  if cols > 0 then (left + cols, right)
  else if rows < 0 then (left, right + cols)
  else (left, right)

/-- Modelled from the spec (§4.3 step 1): the column rule as the spec states
it, depending only on the column delta.  Used to compare the source's
`adjust_cols` against the specified behaviour. -/
def spec_adjust_cols (left right cols : Int) : Int × Int :=
  if cols > 0 then (left + cols, right)
  else if cols < 0 then (left, right + cols)
  else (left, right)

/-- One row of the snapshot loop (`editor.rs` lines 181-183):
read `n` cells of `row` starting at column `left`; `none` models the panic of
the unchecked index `row[x as usize]` (a negative `isize` wraps to a huge
`usize` and also panics). -/
def copyRowAux (row : List GridCell) (left : Int) : Nat → Option (List GridCell)
  | 0 => some []
  | n + 1 =>
    if 0 ≤ left then
      match row.get? left.toNat with
      | some c => (copyRowAux row (left + 1) n).map (fun rest => c :: rest)
      | none => none
    else none

/-- The snapshot loop (`editor.rs` lines 177-185): read `n` rows starting at
row `top`, columns `[left, right)`; `none` models the panic of the unchecked
index `self.grid[y as usize]`. -/
def copyRegionAux (grid : List (List GridCell)) (top left right : Int) :
    Nat → Option (List (List GridCell))
  | 0 => some []
  | n + 1 =>
    if 0 ≤ top then
      match grid.get? top.toNat with
      | some row =>
        match copyRowAux row left (right - left).toNat with
        | some sec =>
          (copyRegionAux grid (top + 1) left right n).map (fun rest => sec :: rest)
        | none => none
      | none => none
    else none

/-- One destination write (`editor.rs` lines 195-200): bounds-checked
("clamped") write of `cell` at `(y, x)`. -/
def setCell (grid : List (List GridCell)) (y x : Int) (cell : GridCell) :
    List (List GridCell) :=
  if 0 ≤ y ∧ y < (grid.length : Int) then
    match grid.get? y.toNat with
    | some row =>
      if 0 ≤ x ∧ x < (row.length : Int) then
        grid.set y.toNat (row.set x.toNat cell)
      else grid
    | none => grid
  else grid

/-- The inner write-back loop (`editor.rs` lines 193-201): write the cells of
one snapshot row at columns `x, x+1, ...` of destination row `y`. -/
def writeSec (grid : List (List GridCell)) (y x : Int) :
    List GridCell → List (List GridCell)
  | [] => grid
  | c :: rest => writeSec (setCell grid y x c) y (x + 1) rest

/-- The outer write-back loop (`editor.rs` lines 192-203): write the snapshot
rows at destination rows `y, y+1, ...`, columns starting at `x`. -/
def writeRows (grid : List (List GridCell)) (y x : Int) :
    List (List GridCell) → List (List GridCell)
  | [] => grid
  | sec :: rest => writeRows (writeSec grid y x sec) (y + 1) x rest

/-- `Editor::scroll_region` (`editor.rs` lines 157-204) acting on the grid.
`none` models a panic during the snapshot phase; destination writes are
bounds-checked and never panic. -/
def scrollGrid (grid : List (List GridCell)) (top bot left right rows cols : Int) :
    Option (List (List GridCell)) :=
  let rowAdj := adjust_rows top bot rows
  let colAdj := adjust_cols left right rows cols
  match copyRegionAux grid rowAdj.1 colAdj.1 colAdj.2 (rowAdj.2 - rowAdj.1).toNat with
  | some region => some (writeRows grid (rowAdj.1 - rows) (colAdj.1 - cols) region)
  | none => none

/-- `Editor::scroll_region` on the editor state. -/
def Editor.scroll_region (e : Editor) (top bot left right rows cols : Int) :
    Option Editor :=
  (scrollGrid e.grid top bot left right rows cols).map (fun g => { e with grid := g })

/-! ## Line update applier (`editor.rs` lines 131-155) -/

/-- The style-resolution match of `Editor::draw` (`editor.rs` lines 135-140).
`none` models the panic of
`.expect("GridLineCell must use defined color")` on an undefined style id. -/
def Editor.resolve_style (e : Editor) (style_id : Option Nat) : Option Style :=
  match style_id, e.previous_style with
  | some 0, _ => some (Style.new e.default_colors)
  | some sid, _ => e.defined_styles sid
  | none, some previous_style => some previous_style
  | none, none => some (Style.new e.default_colors)

/-- The character-writing loop of `Editor::draw` (`editor.rs` lines 144-149):
write the characters of `text` with `style` into `row` at columns
`col_start, col_start + 1, ...`, silently skipping out-of-bounds columns. -/
def writeText (row : List GridCell) (style : Style) (col_start : Nat) :
    List Char → List GridCell
  | [] => row
  | ch :: rest =>
    writeText
      (if col_start < row.length then row.set col_start (some (ch, style)) else row)
      style (col_start + 1) rest

/-- `Editor::draw` (`editor.rs` lines 131-155).  The returned `Bool` records
whether the `println!("Draw command out of bounds")` diagnostic fired; the
outer `none` models the panic on an undefined style id (and the inner,
unreachable `none` the `expect` on `grid.get_mut`). -/
def Editor.draw (e : Editor) (command : GridLineCell) : Option (Editor × Bool) :=
  match e.resolve_style command.style_id with
  | none => none
  | some style =>
    if command.row < e.grid.length then
      match e.grid.get? command.row with
      | some row =>
        some ({ e with
                  grid := e.grid.set command.row
                    (writeText row style command.col_start command.text),
                  previous_style := some style }, false)
      | none => none
    else
      some ({ e with previous_style := some style }, true)

/-! ## Draw-command compactor (`editor.rs` lines 86-129) -/

/-- `command_matches` (`editor.rs` lines 97-102). -/
def command_matches (command : Option DrawCommand) (style : Style) : Bool :=
  match command with
  | some command => decide (command.style = style)
  | none => true

/-- `add_command` (`editor.rs` lines 91-95): flush the open command, if any,
onto the emitted list. -/
def add_command (commands_list : List DrawCommand) (command : Option DrawCommand) :
    List DrawCommand :=
  match command with
  | some command => commands_list ++ [command]
  | none => commands_list

/-- `add_character` (`editor.rs` lines 104-111): append to the open command,
or open a fresh one at the current position. -/
def add_character (command : Option DrawCommand) (character : Char)
    (row_index col_index : Nat) (style : Style) : Option DrawCommand :=
  match command with
  | some command => some { command with text := command.text ++ [character] }
  | none => some (DrawCommand.mk [character] row_index col_index style)

/-- One iteration of the per-row scan loop (`editor.rs` lines 113-124), on
the state (emitted commands, open command). -/
def rowStep (row_index : Nat) (st : List DrawCommand × Option DrawCommand)
    (p : Nat × GridCell) : List DrawCommand × Option DrawCommand :=
  match p.2 with
  | some (character, new_style) =>
    let st' := if command_matches st.2 new_style then st
               else (add_command st.1 st.2, none)
    (st'.1, add_character st'.2 character row_index p.1 new_style)
  | none => (add_command st.1 st.2, none)

/-- The per-row body of `build_draw_commands` (`editor.rs` lines 87-127). -/
def buildRowCommands (row_index : Nat) (row : List GridCell) : List DrawCommand :=
  let st := row.enum.foldl (rowStep row_index) ([], none)
  add_command st.1 st.2

/-- `Editor::build_draw_commands` (`editor.rs` lines 86-129), acting on the
grid (the method reads only `self.grid`). -/
def build_draw_commands (grid : List (List GridCell)) : List DrawCommand :=
  (grid.enum.map (fun p => buildRowCommands p.1 p.2)).flatten

/-! ## Lifecycle operations (`editor.rs` lines 207-227) -/

/-- `Editor::clear` (`editor.rs` lines 207-210): replace the grid with an
all-empty matrix of the recorded size.  Nothing else is touched. -/
def Editor.clear (e : Editor) : Editor :=
  { e with grid := List.replicate e.size.2 (List.replicate e.size.1 none) }

/-- `Editor::resize` (`editor.rs` lines 212-215).  The external
`nvim.ui_try_resize` round trip is modelled by `host_ok`; `none` models the
panic of `.expect("Resize failed")` when the host rejects the request. -/
def Editor.resize (e : Editor) (new_width new_height : Nat) (host_ok : Bool) :
    Option Editor :=
  if host_ok then some { e with size := (new_width, new_height) } else none

/-- `Editor::define_style` (`editor.rs` lines 217-219): store/overwrite the
style bound to `id` (the `HashMap` insert as a function update). -/
def Editor.define_style (e : Editor) (id : Nat) (style : Style) : Editor :=
  { e with defined_styles := fun i => if i = id then some style else e.defined_styles i }

/-- `Editor::set_default_colors` (`editor.rs` lines 221-223). -/
def Editor.set_default_colors (e : Editor) (foreground background special : Color4f) :
    Editor :=
  { e with default_colors := Colors.mk (some foreground) (some background) (some special) }

/-- `Editor::jump_cursor_to` (`editor.rs` lines 225-227). -/
def Editor.jump_cursor_to (e : Editor) (row col : Nat) : Editor :=
  { e with cursor_pos := (row, col) }

/-! ## Concrete fixtures used by counterexamples and witnesses -/

/-- The initial default colors of `Editor::new` (`editor.rs` line 78). -/
def default_colors0 : Colors :=
  Colors.mk (some COLOR_WHITE) (some COLOR_BLACK) (some COLOR_GREY)

/-- A plain default style. -/
def style0 : Style := Style.new default_colors0

/-- A second, different style (bold). -/
def style1 : Style := { style0 with bold := true }

def cellA : GridCell := some ('A', style0)

def cellB : GridCell := some ('B', style0)

def cellC : GridCell := some ('C', style0)

def cellD : GridCell := some ('D', style0)

def cellE : GridCell := some ('E', style0)

def cellF : GridCell := some ('F', style0)

/-- The empty grid cell. -/
def cellN : GridCell := (none : Option (Char × Style))

/-- A concrete editor: one row of two empty cells, style id `7` bound to
`style1`, no previous style. -/
def editorS : Editor :=
  ⟨[[cellN, cellN]], (0, 0), CursorType.block, (2, 1), default_colors0,
    fun i => if i = 7 then some style1 else none, none⟩

/-- A concrete editor whose registry has an entry under id `0`. -/
def editorZ : Editor :=
  ⟨[[cellN]], (0, 0), CursorType.block, (1, 1), default_colors0,
    fun i => if i = 0 then some style1 else none, none⟩

/-- A concrete editor holding a previous style. -/
def editorP : Editor :=
  ⟨[[cellN]], (0, 0), CursorType.block, (1, 1), default_colors0,
    fun _ => none, some style1⟩

/-! ## Specification devices for the compactor -/

/-- How two consecutive emitted commands of one row may sit next to each
other: either back to back with different styles (a style break), or with a
gap whose first column holds an empty cell (an empty-cell break). -/
def sep (row : List GridCell) (c d : DrawCommand) : Prop :=
  (c.col_start + c.text.length = d.col_start ∧ c.style ≠ d.style) ∨
  (c.col_start + c.text.length < d.col_start ∧
    row.get? (c.col_start + c.text.length) = some none)

/-- A command reproduces row `ri` exactly: its `k`-th character sits at
column `col_start + k` of the row, styled with the command's style.  In
particular no covered column holds an empty cell. -/
def covers (ri : Nat) (row : List GridCell) (c : DrawCommand) : Prop :=
  c.row = ri ∧ c.text ≠ [] ∧
  ∀ k ch, c.text.get? k = some ch →
    row.get? (c.col_start + k) = some (some (ch, c.style))

/-- Invariant of the per-row scan after processing the first `n` cells:
all closed commands and the open one reproduce the row and end by `n`, they
are chained by `sep`, the open command (if any) ends exactly at `n`, and
when no command is open the last closed one ended strictly before `n` at an
empty cell. -/
def scanInv (ri : Nat) (row : List GridCell) (n : Nat)
    (st : List DrawCommand × Option DrawCommand) : Prop :=
  (∀ c ∈ st.1 ++ st.2.toList, covers ri row c ∧ c.col_start + c.text.length ≤ n) ∧
  List.Chain' (sep row) (st.1 ++ st.2.toList) ∧
  (∀ c, st.2 = some c → c.col_start + c.text.length = n) ∧
  (st.2 = none → ∀ d ∈ st.1.getLast?, d.col_start + d.text.length < n ∧
    row.get? (d.col_start + d.text.length) = some none)

/-! ## Shape preservation for the scroll write-back -/

/-- Two grids have the same shape: same row count and same row lengths. -/
def sameShape (g g' : List (List GridCell)) : Prop :=
  g'.length = g.length ∧ ∀ k, (g'.get? k).map List.length = (g.get? k).map List.length

theorem sameShape_refl (g : List (List GridCell)) : sameShape g g :=
  ⟨rfl, fun _ => rfl⟩

theorem sameShape_trans {g₁ g₂ g₃ : List (List GridCell)}
    (h₁ : sameShape g₁ g₂) (h₂ : sameShape g₂ g₃) : sameShape g₁ g₃ :=
  ⟨h₂.1.trans h₁.1, fun k => (h₂.2 k).trans (h₁.2 k)⟩


/-- `get?` after `set`, in one closed form. -/
theorem list_get?_set {α : Type _} :
    ∀ (l : List α) (m : Nat) (a : α) (n : Nat),
      (l.set m a).get? n = if m = n ∧ m < l.length then some a else l.get? n := by
  intro l
  induction l with
  | nil => intro m a n; simp
  | cons x xs ih =>
    intro m a n
    cases m with
    | zero =>
      cases n with
      | zero => simp
      | succ n => simp
    | succ m =>
      cases n with
      | zero => simp
      | succ n =>
        have h1 : ((x :: xs).set (m + 1) a).get? (n + 1) = (xs.set m a).get? n := rfl
        have h2 : (x :: xs).get? (n + 1) = xs.get? n := rfl
        rw [h1, h2, ih m a n, List.length_cons]
        by_cases h : m = n ∧ m < xs.length
        · rw [if_pos h, if_pos ⟨by omega, by omega⟩]
        · rw [if_neg h, if_neg (fun hc => h ⟨by omega, by omega⟩)]

theorem setCell_sameShape (g : List (List GridCell)) (y x : Int) (c : GridCell) :
    sameShape g (setCell g y x c) := by
  unfold setCell
  split
  · split
    · rename_i row hrow
      split
      · refine ⟨by simp, fun k => ?_⟩
        rw [list_get?_set]
        split
        · rename_i h
          rw [← h.1, hrow]
          simp
        · rfl
      · exact sameShape_refl g
    · exact sameShape_refl g
  · exact sameShape_refl g

theorem writeSec_sameShape (sec : List GridCell) :
    ∀ (g : List (List GridCell)) (y x : Int), sameShape g (writeSec g y x sec) := by
  induction sec with
  | nil => intro g y x; exact sameShape_refl g
  | cons c rest ih =>
    intro g y x
    exact sameShape_trans (setCell_sameShape g y x c) (ih _ y (x + 1))

theorem writeRows_sameShape (region : List (List GridCell)) :
    ∀ (g : List (List GridCell)) (y x : Int), sameShape g (writeRows g y x region) := by
  induction region with
  | nil => intro g y x; exact sameShape_refl g
  | cons sec rest ih =>
    intro g y x
    exact sameShape_trans (writeSec_sameShape sec g y x) (ih _ (y + 1) x)

theorem getc_isSome_of_sameShape {g g' : List (List GridCell)}
    (h : sameShape g g') (i j : Nat) : (getc g' i j).isSome = (getc g i j).isSome := by
  unfold getc
  have hk := h.2 i
  cases h1 : g.get? i with
  | none =>
    rw [h1] at hk
    cases h2 : g'.get? i with
    | none => rfl
    | some row' => rw [h2] at hk; exact absurd hk (by simp)
  | some row =>
    rw [h1] at hk
    cases h2 : g'.get? i with
    | none => rw [h2] at hk; exact absurd hk (by simp)
    | some row' =>
      rw [h2] at hk
      have hlen : row'.length = row.length := by
        simpa using hk
      show (row'.get? j).isSome = (row.get? j).isSome
      cases Nat.lt_or_ge j row.length with
      | inl hlt =>
        rw [List.get?_eq_get hlt, List.get?_eq_get (hlen ▸ hlt : j < row'.length)]
        rfl
      | inr hge =>
        rw [List.get?_eq_none.2 hge, List.get?_eq_none.2 (hlen ▸ hge : row'.length ≤ j)]

theorem getc_isSome_elim {g : List (List GridCell)} {i j : Nat}
    (h : (getc g i j).isSome) : ∃ row, g.get? i = some row ∧ j < row.length := by
  unfold getc at h
  cases h1 : g.get? i with
  | none => rw [h1] at h; simp at h
  | some row =>
    rw [h1] at h
    cases hrj : row.get? j with
    | none => rw [show (some row).bind (fun r => r.get? j) = row.get? j from rfl, hrj] at h; simp at h
    | some cell =>
      obtain ⟨hlt, -⟩ := List.get?_eq_some.1 hrj
      exact ⟨row, rfl, hlt⟩

theorem getc_isSome_intro {g : List (List GridCell)} {i j : Nat} {row : List GridCell}
    (hrow : g.get? i = some row) (hj : j < row.length) : (getc g i j).isSome := by
  unfold getc
  rw [hrow]
  show (row.get? j).isSome
  rw [List.get?_eq_get hj]
  rfl

theorem getc_of_row {g : List (List GridCell)} {i : Nat} {row : List GridCell}
    (hrow : g.get? i = some row) (j : Nat) : getc g i j = row.get? j := by
  unfold getc
  rw [hrow]
  rfl

theorem getc_set_row (g : List (List GridCell)) (n : Nat) (r' : List GridCell)
    (i j : Nat) :
    getc (g.set n r') i j = if n = i ∧ n < g.length then r'.get? j else getc g i j := by
  unfold getc
  rw [list_get?_set]
  split
  · rfl
  · rfl

/-- Pointwise effect of one clamped write: cell `(i, j)` receives `c` exactly
when `(i, j)` is the write target and lies inside the grid. -/
theorem getc_setCell (g : List (List GridCell)) (y x : Int) (c : GridCell) (i j : Nat) :
    getc (setCell g y x c) i j =
      if (i : Int) = y ∧ (j : Int) = x ∧ (getc g i j).isSome then some c
      else getc g i j := by
  unfold setCell
  split
  · rename_i hy
    split
    · rename_i row hrow
      split
      · rename_i hx
        show getc (g.set y.toNat (row.set x.toNat c)) i j = _
        rw [getc_set_row]
        by_cases hiy : y.toNat = i ∧ y.toNat < g.length
        · rw [if_pos hiy]
          have hgi : g.get? i = some row := by rw [← hiy.1]; exact hrow
          rw [list_get?_set]
          by_cases hjx : x.toNat = j ∧ x.toNat < row.length
          · rw [if_pos hjx, if_pos]
            exact ⟨by omega, by omega, getc_isSome_intro hgi (by omega)⟩
          · rw [if_neg hjx, if_neg]
            · exact (getc_of_row hgi j).symm
            · intro hc
              obtain ⟨hc1, hc2, -⟩ := hc
              exact hjx ⟨by omega, by omega⟩
        · rw [if_neg hiy, if_neg]
          intro hc
          obtain ⟨hc1, -, -⟩ := hc
          exact hiy ⟨by omega, by omega⟩
      · rename_i hx
        rw [if_neg]
        intro hc
        obtain ⟨hc1, hc2, hc3⟩ := hc
        obtain ⟨row', hrow', hj'⟩ := getc_isSome_elim hc3
        have hrr : row' = row := by
          have hyi : y.toNat = i := by omega
          rw [← hyi, hrow] at hrow'
          injection hrow'.symm
        subst hrr
        exact hx ⟨by omega, by omega⟩
    · rename_i hrow
      exact absurd (List.get?_eq_none.1 hrow) (by omega)
  · rename_i hy
    rw [if_neg]
    intro hc
    obtain ⟨hc1, -, hc3⟩ := hc
    obtain ⟨row', hrow', -⟩ := getc_isSome_elim hc3
    obtain ⟨hlt, -⟩ := List.get?_eq_some.1 hrow'
    exact hy ⟨by omega, by omega⟩

/-- Pointwise effect of the inner write-back loop: destination row `y`,
columns `[x, x + sec.length)`, clamped to the grid. -/
theorem getc_writeSec (sec : List GridCell) :
    ∀ (g : List (List GridCell)) (y x : Int) (i j : Nat),
      getc (writeSec g y x sec) i j =
        if (i : Int) = y ∧ x ≤ (j : Int) ∧ (j : Int) < x + (sec.length : Int) ∧
            (getc g i j).isSome
        then sec.get? ((j : Int) - x).toNat
        else getc g i j := by
  induction sec with
  | nil =>
    intro g y x i j
    rw [if_neg]
    · rfl
    · intro hc
      obtain ⟨-, h2, h3, -⟩ := hc
      simp only [List.length_nil, Nat.cast_zero] at h3
      omega
  | cons c rest ih =>
    intro g y x i j
    show getc (writeSec (setCell g y x c) y (x + 1) rest) i j = _
    rw [ih (setCell g y x c) y (x + 1) i j,
        getc_isSome_of_sameShape (setCell_sameShape g y x c) i j]
    simp only [List.length_cons]
    by_cases hin : (i : Int) = y ∧ x ≤ (j : Int) ∧
        (j : Int) < x + ((rest.length + 1 : Nat) : Int) ∧ (getc g i j).isSome
    · rw [if_pos hin]
      obtain ⟨h1, h2, h3, h4⟩ := hin
      by_cases hj : (j : Int) = x
      · rw [if_neg]
        · rw [getc_setCell, if_pos ⟨h1, hj, h4⟩]
          have hidx : ((j : Int) - x).toNat = 0 := by omega
          rw [hidx]
          rfl
        · intro hc
          obtain ⟨-, hc2, -, -⟩ := hc
          omega
      · have hx1 : x + 1 ≤ (j : Int) := by omega
        rw [if_pos ⟨h1, hx1, by push_cast at h3 ⊢; omega, h4⟩]
        have hidx : ((j : Int) - x).toNat = ((j : Int) - (x + 1)).toNat + 1 := by omega
        rw [hidx]
        rfl
    · rw [if_neg hin]
      have hL : ¬ ((i : Int) = y ∧ x + 1 ≤ (j : Int) ∧
          (j : Int) < x + 1 + (rest.length : Int) ∧ (getc g i j).isSome) := by
        intro hc
        obtain ⟨hc1, hc2, hc3, hc4⟩ := hc
        refine hin ⟨hc1, by omega, by push_cast at hc3 ⊢; omega, hc4⟩
      rw [if_neg hL, getc_setCell, if_neg]
      intro hc
      obtain ⟨hc1, hc2, hc3⟩ := hc
      refine hin ⟨hc1, by omega, by push_cast; omega, hc3⟩

/-- Pointwise effect of the outer write-back loop on a rectangular snapshot:
destination rectangle rows `[y, y + region.length)`, columns `[x, x + nC)`,
clamped to the grid. -/
theorem getc_writeRows (nC : Nat) :
    ∀ (region : List (List GridCell)), (∀ sec ∈ region, sec.length = nC) →
    ∀ (g : List (List GridCell)) (y x : Int) (i j : Nat),
      getc (writeRows g y x region) i j =
        if y ≤ (i : Int) ∧ (i : Int) < y + (region.length : Int) ∧
            x ≤ (j : Int) ∧ (j : Int) < x + (nC : Int) ∧ (getc g i j).isSome
        then (region.get? ((i : Int) - y).toNat).bind
               (fun sec => sec.get? ((j : Int) - x).toNat)
        else getc g i j := by
  intro region
  induction region with
  | nil =>
    intro _ g y x i j
    rw [if_neg]
    · rfl
    · intro hc
      obtain ⟨h1, h2, -⟩ := hc
      simp only [List.length_nil, Nat.cast_zero] at h2
      omega
  | cons sec rest ih =>
    intro hW g y x i j
    have hsec : sec.length = nC := hW sec (by simp)
    have hrest : ∀ s ∈ rest, s.length = nC := fun s hs => hW s (by simp [hs])
    show getc (writeRows (writeSec g y x sec) (y + 1) x rest) i j = _
    rw [ih hrest (writeSec g y x sec) (y + 1) x i j,
        getc_isSome_of_sameShape (writeSec_sameShape sec g y x) i j]
    simp only [List.length_cons]
    by_cases hin : y ≤ (i : Int) ∧ (i : Int) < y + ((rest.length + 1 : Nat) : Int) ∧
        x ≤ (j : Int) ∧ (j : Int) < x + (nC : Int) ∧ (getc g i j).isSome
    · rw [if_pos hin]
      obtain ⟨h1, h2, h3, h4, h5⟩ := hin
      by_cases hiy : (i : Int) = y
      · rw [if_neg]
        · rw [getc_writeSec sec g y x i j,
              if_pos ⟨hiy, h3, by rw [hsec]; exact h4, h5⟩]
          have hidx : ((i : Int) - y).toNat = 0 := by omega
          rw [hidx]
          rfl
        · intro hc
          obtain ⟨hc1, -⟩ := hc
          omega
      · rw [if_pos ⟨by omega, by push_cast at h2 ⊢; omega, h3, h4, h5⟩]
        have hidx : ((i : Int) - y).toNat = ((i : Int) - (y + 1)).toNat + 1 := by omega
        rw [hidx]
        rfl
    · rw [if_neg hin]
      have hL : ¬ (y + 1 ≤ (i : Int) ∧ (i : Int) < y + 1 + (rest.length : Int) ∧
          x ≤ (j : Int) ∧ (j : Int) < x + (nC : Int) ∧ (getc g i j).isSome) := by
        intro hc
        obtain ⟨hc1, hc2, hc3, hc4, hc5⟩ := hc
        exact hin ⟨by omega, by push_cast at hc2 ⊢; omega, hc3, hc4, hc5⟩
      rw [if_neg hL, getc_writeSec sec g y x i j, if_neg]
      intro hc
      obtain ⟨hc1, hc2, hc3, hc4⟩ := hc
      refine hin ⟨by omega, by push_cast; omega, hc2, ?_, hc4⟩
      rw [hsec] at hc3
      exact hc3

/-- A successful snapshot row is exactly the cells of `row` at columns
`left, left + 1, ...`, all of them in bounds. -/
theorem copyRowAux_spec :
    ∀ (n : Nat) (row : List GridCell) (left : Int) (sec : List GridCell),
      copyRowAux row left n = some sec →
      sec.length = n ∧
      ∀ x : Nat, x < n →
        0 ≤ left + (x : Int) ∧ left + (x : Int) < (row.length : Int) ∧
        sec.get? x = row.get? (left + (x : Int)).toNat := by
  intro n
  induction n with
  | zero =>
    intro row left sec h
    simp only [copyRowAux] at h
    cases h
    exact ⟨rfl, fun x hx => absurd hx (Nat.not_lt_zero x)⟩
  | succ n ih =>
    intro row left sec h
    simp only [copyRowAux] at h
    split at h
    · rename_i h0
      split at h
      · rename_i c hc
        cases hrec : copyRowAux row (left + 1) n with
        | none => rw [hrec] at h; exact absurd h (by simp)
        | some rest =>
          rw [hrec] at h
          have hsec : sec = c :: rest := by
            have := h
            simp only [Option.map_some'] at this
            injection this with h1
            exact h1.symm
          obtain ⟨hlen, hrest⟩ := ih row (left + 1) rest hrec
          subst hsec
          refine ⟨by simp [hlen], ?_⟩
          intro x hx
          cases x with
          | zero =>
            obtain ⟨hlt, -⟩ := List.get?_eq_some.1 hc
            refine ⟨by omega, by omega, ?_⟩
            have hidx : (left + ((0 : Nat) : Int)).toNat = left.toNat := by omega
            rw [hidx, hc]
            rfl
          | succ x =>
            obtain ⟨ha, hb, hcx⟩ := hrest x (by omega)
            refine ⟨by push_cast; omega, by push_cast at hb ⊢; omega, ?_⟩
            have hidx : (left + ((x + 1 : Nat) : Int)).toNat = (left + 1 + (x : Int)).toNat := by
              push_cast
              omega
            rw [hidx, ← hcx]
            rfl
      · exact absurd h (by simp)
    · exact absurd h (by simp)

/-- A successful snapshot region is row-by-row a successful row snapshot of
the grid rows `top, top + 1, ...`. -/
theorem copyRegionAux_spec :
    ∀ (n : Nat) (grid : List (List GridCell)) (top left right : Int)
      (region : List (List GridCell)),
      copyRegionAux grid top left right n = some region →
      region.length = n ∧
      ∀ y : Nat, y < n →
        0 ≤ top + (y : Int) ∧
        ∃ row sec, grid.get? (top + (y : Int)).toNat = some row ∧
          region.get? y = some sec ∧
          copyRowAux row left (right - left).toNat = some sec := by
  intro n
  induction n with
  | zero =>
    intro grid top left right region h
    simp only [copyRegionAux] at h
    cases h
    exact ⟨rfl, fun y hy => absurd hy (Nat.not_lt_zero y)⟩
  | succ n ih =>
    intro grid top left right region h
    simp only [copyRegionAux] at h
    split at h
    · rename_i h0
      split at h
      · rename_i row hrow
        split at h
        · rename_i sec hsec
          cases hrec : copyRegionAux grid (top + 1) left right n with
          | none => rw [hrec] at h; exact absurd h (by simp)
          | some rest =>
            rw [hrec] at h
            have hreg : region = sec :: rest := by
              have := h
              simp only [Option.map_some'] at this
              injection this with h1
              exact h1.symm
            obtain ⟨hlen, hrest⟩ := ih grid (top + 1) left right rest hrec
            subst hreg
            refine ⟨by simp [hlen], ?_⟩
            intro y hy
            cases y with
            | zero =>
              refine ⟨by omega, row, sec, ?_, rfl, hsec⟩
              have hidx : (top + ((0 : Nat) : Int)).toNat = top.toNat := by omega
              rw [hidx, hrow]
            | succ y =>
              obtain ⟨ha, row', sec', hrow', hsec', hcopy'⟩ := hrest y (by omega)
              refine ⟨by push_cast; omega, row', sec', ?_, hsec', hcopy'⟩
              have hidx : (top + ((y + 1 : Nat) : Int)).toNat = (top + 1 + (y : Int)).toNat := by
                push_cast
                omega
              rw [hidx, hrow']
        · exact absurd h (by simp)
      · exact absurd h (by simp)
    · exact absurd h (by simp)

/-- A successful `scrollGrid` preserves the grid's shape. -/
theorem scrollGrid_sameShape {grid grid' : List (List GridCell)}
    {top bot left right rows cols : Int}
    (h : scrollGrid grid top bot left right rows cols = some grid') :
    sameShape grid grid' := by
  simp only [scrollGrid] at h
  split at h
  · rename_i region hsnap
    injection h with h1
    rw [← h1]
    apply writeRows_sameShape
  · exact absurd h (by simp)

/-- Pointwise description of a successful `scrollGrid` on its destination
rectangle: a destination cell `(i, j)` (in grid bounds) receives the cell
that was snapshotted at `(i + rows, j + cols)`. -/
theorem scrollGrid_dest_eq {grid grid' : List (List GridCell)}
    {top bot left right rows cols t' b' l' r' : Int}
    (hA : adjust_rows top bot rows = (t', b'))
    (hC : adjust_cols left right rows cols = (l', r'))
    (h : scrollGrid grid top bot left right rows cols = some grid')
    (i j : Nat)
    (hrow : t' ≤ (i : Int) + rows ∧ (i : Int) + rows < t' + (((b' - t').toNat : Nat) : Int))
    (hcol : l' ≤ (j : Int) + cols ∧ (j : Int) + cols < l' + (((r' - l').toNat : Nat) : Int))
    (hsome : (getc grid i j).isSome) :
    0 ≤ (i : Int) + rows ∧ 0 ≤ (j : Int) + cols ∧
    getc grid' i j = getc grid ((i : Int) + rows).toNat ((j : Int) + cols).toNat := by
  simp only [scrollGrid, hA, hC] at h
  split at h
  · rename_i region hsnap
    injection h with h1
    obtain ⟨hlen, hrows⟩ := copyRegionAux_spec _ _ _ _ _ _ hsnap
    have hW : ∀ sec ∈ region, sec.length = (r' - l').toNat := by
      intro sec hs
      obtain ⟨k, hk⟩ := List.mem_iff_get?.1 hs
      obtain ⟨hklt, -⟩ := List.get?_eq_some.1 hk
      obtain ⟨-, row, sec', hrow', hsec', hcopy'⟩ := hrows k (by omega)
      rw [hk] at hsec'
      injection hsec' with he
      rw [he]
      exact (copyRowAux_spec _ _ _ _ hcopy').1
    rw [← h1, getc_writeRows _ region hW grid (t' - rows) (l' - cols) i j, if_pos]
    · have hyylt : ((i : Int) - (t' - rows)).toNat < region.length := by omega
      obtain ⟨hpos, row, sec, hrowg, hsecr, hcopy⟩ :=
        hrows ((i : Int) - (t' - rows)).toNat (by omega)
      rw [hsecr]
      obtain ⟨hseclen, hcells⟩ := copyRowAux_spec _ _ _ _ hcopy
      have hxxlt : ((j : Int) - (l' - cols)).toNat < (r' - l').toNat := by omega
      obtain ⟨hposx, hltx, hcellx⟩ := hcells ((j : Int) - (l' - cols)).toNat hxxlt
      refine ⟨by omega, by omega, ?_⟩
      show sec.get? _ = _
      have hgr : grid.get? ((i : Int) + rows).toNat = some row := by
        have hidx : ((i : Int) + rows).toNat = (t' + (((i : Int) - (t' - rows)).toNat : Int)).toNat := by
          omega
        rw [hidx]
        exact hrowg
      rw [getc_of_row hgr, hcellx]
      congr 1
      omega
    · exact ⟨by omega, by omega, by omega, by omega, hsome⟩
  · exact absurd h (by simp)

theorem getc_isSome_of_uniform {g : List (List GridCell)} {w i j : Nat}
    (hw : ∀ row ∈ g, row.length = w) (hi : i < g.length) (hj : j < w) :
    (getc g i j).isSome := by
  cases hg : g.get? i with
  | none => exact absurd (List.get?_eq_none.1 hg) (by omega)
  | some row =>
    have hrlen : row.length = w := hw row (List.get?_mem hg)
    exact getc_isSome_intro hg (by omega)

/-- Core of the scroll round-trip argument, stated with the four adjusted
boundaries of the two calls as explicit parameters; the sign analysis that
computes them is done at the call sites. -/
theorem scroll_roundtrip_core
    {g g₁ g₂ : List (List GridCell)}
    {top bot left right dr dc t₁' b₁' l₁' r₁' t₂' b₂' l₂' r₂' : Int} {w : Nat}
    (hw : ∀ row ∈ g, row.length = w)
    (h₁ : scrollGrid g top bot left right dr dc = some g₁)
    (h₂ : scrollGrid g₁ top bot left right (-dr) (-dc) = some g₂)
    (hA₁ : adjust_rows top bot dr = (t₁', b₁'))
    (hC₁ : adjust_cols left right dr dc = (l₁', r₁'))
    (hA₂ : adjust_rows top bot (-dr) = (t₂', b₂'))
    (hC₂ : adjust_cols left right (-dr) (-dc) = (l₂', r₂'))
    (i j : Nat)
    (c1r : t₁' ≤ (i : Int) ∧ (i : Int) < t₁' + (((b₁' - t₁').toNat : Nat) : Int))
    (c1c : l₁' ≤ (j : Int) ∧ (j : Int) < l₁' + (((r₁' - l₁').toNat : Nat) : Int))
    (c2r : t₂' ≤ (i : Int) - dr ∧ (i : Int) - dr < t₂' + (((b₂' - t₂').toNat : Nat) : Int))
    (c2c : l₂' ≤ (j : Int) - dc ∧ (j : Int) - dc < l₂' + (((r₂' - l₂').toNat : Nat) : Int))
    (hib : i < g.length) (hjb : (j : Int) < (w : Int))
    (hib' : (i : Int) - dr < (g.length : Int)) (hjb' : (j : Int) - dc < (w : Int)) :
    getc g₂ i j = getc g i j := by
  have hsome : (getc g i j).isSome := getc_isSome_of_uniform hw hib (by omega)
  have hshape₁ := scrollGrid_sameShape h₁
  have hsome₁ : (getc g₁ i j).isSome := by
    rw [getc_isSome_of_sameShape hshape₁ i j]
    exact hsome
  obtain ⟨hn1, hn2, heq₂⟩ := scrollGrid_dest_eq hA₂ hC₂ h₂ i j
    ⟨by omega, by omega⟩ ⟨by omega, by omega⟩ hsome₁
  have hi' : ((((i : Int) + -dr).toNat : Nat) : Int) = (i : Int) - dr := by omega
  have hj' : ((((j : Int) + -dc).toNat : Nat) : Int) = (j : Int) - dc := by omega
  have hsome' : (getc g (((i : Int) + -dr).toNat) (((j : Int) + -dc).toNat)).isSome :=
    getc_isSome_of_uniform hw (by omega) (by omega)
  obtain ⟨-, -, heq₁⟩ := scrollGrid_dest_eq hA₁ hC₁ h₁
    (((i : Int) + -dr).toNat) (((j : Int) + -dc).toNat)
    ⟨by omega, by omega⟩ ⟨by omega, by omega⟩ hsome'
  rw [heq₂, heq₁]
  have hii : (((((i : Int) + -dr).toNat : Nat) : Int) + dr).toNat = i := by omega
  have hjj : (((((j : Int) + -dc).toNat : Nat) : Int) + dc).toNat = j := by omega
  rw [hii, hjj]

/-- **C2** (amended).  Scrolling a rectangle by `(dr, dc)` and then by
`(-dr, -dc)` restores the original content of every cell of the first call's
delta-adjusted source sub-rectangle — rows `[top + max dr 0, bot + min dr 0)`,
columns `[left + max dc 0, right + min dc 0)` — provided that sub-rectangle
and its shifted image both lie fully inside the (uniform-width) grid and both
calls complete without panicking.  Cells of the rectangle outside that source
sub-rectangle are in general not restored (see the counterexample). -/
theorem c2_scroll_roundtrip_restores_source
    (g g₁ g₂ : List (List GridCell)) (top bot left right dr dc : Int) (w : Nat)
    (hw : ∀ row ∈ g, row.length = w)
    (h₁ : scrollGrid g top bot left right dr dc = some g₁)
    (h₂ : scrollGrid g₁ top bot left right (-dr) (-dc) = some g₂)
    (hsrc_rows : 0 ≤ top + max dr 0 ∧ bot + min dr 0 ≤ (g.length : Int))
    (hsrc_cols : 0 ≤ left + max dc 0 ∧ right + min dc 0 ≤ (w : Int))
    (hdst_rows : 0 ≤ top + max dr 0 - dr ∧ bot + min dr 0 - dr ≤ (g.length : Int))
    (hdst_cols : 0 ≤ left + max dc 0 - dc ∧ right + min dc 0 - dc ≤ (w : Int))
    (i j : Nat)
    (hi : top + max dr 0 ≤ (i : Int) ∧ (i : Int) < bot + min dr 0)
    (hj : left + max dc 0 ≤ (j : Int) ∧ (j : Int) < right + min dc 0) :
    getc g₂ i j = getc g i j := by
  rcases lt_trichotomy dr 0 with hdr | hdr | hdr <;>
    rcases lt_trichotomy dc 0 with hdc | hdc | hdc
  · -- dr < 0, dc < 0
    have hA₁ : adjust_rows top bot dr = (top, bot + dr) := by
      unfold adjust_rows; rw [if_neg (by omega), if_pos (by omega)]
    have hC₁ : adjust_cols left right dr dc = (left, right + dc) := by
      unfold adjust_cols; rw [if_neg (by omega), if_pos (by omega)]
    have hA₂ : adjust_rows top bot (-dr) = (top + -dr, bot) := by
      unfold adjust_rows; rw [if_pos (by omega)]
    have hC₂ : adjust_cols left right (-dr) (-dc) = (left + -dc, right) := by
      unfold adjust_cols; rw [if_pos (by omega)]
    exact scroll_roundtrip_core hw h₁ h₂ hA₁ hC₁ hA₂ hC₂ i j
      ⟨by omega, by omega⟩ ⟨by omega, by omega⟩ ⟨by omega, by omega⟩ ⟨by omega, by omega⟩
      (by omega) (by omega) (by omega) (by omega)
  · -- dr < 0, dc = 0
    have hA₁ : adjust_rows top bot dr = (top, bot + dr) := by
      unfold adjust_rows; rw [if_neg (by omega), if_pos (by omega)]
    have hC₁ : adjust_cols left right dr dc = (left, right + dc) := by
      unfold adjust_cols; rw [if_neg (by omega), if_pos (by omega)]
    have hA₂ : adjust_rows top bot (-dr) = (top + -dr, bot) := by
      unfold adjust_rows; rw [if_pos (by omega)]
    have hC₂ : adjust_cols left right (-dr) (-dc) = (left, right) := by
      unfold adjust_cols; rw [if_neg (by omega), if_neg (by omega)]
    exact scroll_roundtrip_core hw h₁ h₂ hA₁ hC₁ hA₂ hC₂ i j
      ⟨by omega, by omega⟩ ⟨by omega, by omega⟩ ⟨by omega, by omega⟩ ⟨by omega, by omega⟩
      (by omega) (by omega) (by omega) (by omega)
  · -- dr < 0, 0 < dc
    have hA₁ : adjust_rows top bot dr = (top, bot + dr) := by
      unfold adjust_rows; rw [if_neg (by omega), if_pos (by omega)]
    have hC₁ : adjust_cols left right dr dc = (left + dc, right) := by
      unfold adjust_cols; rw [if_pos (by omega)]
    have hA₂ : adjust_rows top bot (-dr) = (top + -dr, bot) := by
      unfold adjust_rows; rw [if_pos (by omega)]
    have hC₂ : adjust_cols left right (-dr) (-dc) = (left, right) := by
      unfold adjust_cols; rw [if_neg (by omega), if_neg (by omega)]
    exact scroll_roundtrip_core hw h₁ h₂ hA₁ hC₁ hA₂ hC₂ i j
      ⟨by omega, by omega⟩ ⟨by omega, by omega⟩ ⟨by omega, by omega⟩ ⟨by omega, by omega⟩
      (by omega) (by omega) (by omega) (by omega)
  · -- dr = 0, dc < 0
    have hA₁ : adjust_rows top bot dr = (top, bot) := by
      unfold adjust_rows; rw [if_neg (by omega), if_neg (by omega)]
    have hC₁ : adjust_cols left right dr dc = (left, right) := by
      unfold adjust_cols; rw [if_neg (by omega), if_neg (by omega)]
    have hA₂ : adjust_rows top bot (-dr) = (top, bot) := by
      unfold adjust_rows; rw [if_neg (by omega), if_neg (by omega)]
    have hC₂ : adjust_cols left right (-dr) (-dc) = (left + -dc, right) := by
      unfold adjust_cols; rw [if_pos (by omega)]
    exact scroll_roundtrip_core hw h₁ h₂ hA₁ hC₁ hA₂ hC₂ i j
      ⟨by omega, by omega⟩ ⟨by omega, by omega⟩ ⟨by omega, by omega⟩ ⟨by omega, by omega⟩
      (by omega) (by omega) (by omega) (by omega)
  · -- dr = 0, dc = 0
    have hA₁ : adjust_rows top bot dr = (top, bot) := by
      unfold adjust_rows; rw [if_neg (by omega), if_neg (by omega)]
    have hC₁ : adjust_cols left right dr dc = (left, right) := by
      unfold adjust_cols; rw [if_neg (by omega), if_neg (by omega)]
    have hA₂ : adjust_rows top bot (-dr) = (top, bot) := by
      unfold adjust_rows; rw [if_neg (by omega), if_neg (by omega)]
    have hC₂ : adjust_cols left right (-dr) (-dc) = (left, right) := by
      unfold adjust_cols; rw [if_neg (by omega), if_neg (by omega)]
    exact scroll_roundtrip_core hw h₁ h₂ hA₁ hC₁ hA₂ hC₂ i j
      ⟨by omega, by omega⟩ ⟨by omega, by omega⟩ ⟨by omega, by omega⟩ ⟨by omega, by omega⟩
      (by omega) (by omega) (by omega) (by omega)
  · -- dr = 0, 0 < dc
    have hA₁ : adjust_rows top bot dr = (top, bot) := by
      unfold adjust_rows; rw [if_neg (by omega), if_neg (by omega)]
    have hC₁ : adjust_cols left right dr dc = (left + dc, right) := by
      unfold adjust_cols; rw [if_pos (by omega)]
    have hA₂ : adjust_rows top bot (-dr) = (top, bot) := by
      unfold adjust_rows; rw [if_neg (by omega), if_neg (by omega)]
    have hC₂ : adjust_cols left right (-dr) (-dc) = (left, right) := by
      unfold adjust_cols; rw [if_neg (by omega), if_neg (by omega)]
    exact scroll_roundtrip_core hw h₁ h₂ hA₁ hC₁ hA₂ hC₂ i j
      ⟨by omega, by omega⟩ ⟨by omega, by omega⟩ ⟨by omega, by omega⟩ ⟨by omega, by omega⟩
      (by omega) (by omega) (by omega) (by omega)
  · -- 0 < dr, dc < 0
    have hA₁ : adjust_rows top bot dr = (top + dr, bot) := by
      unfold adjust_rows; rw [if_pos (by omega)]
    have hC₁ : adjust_cols left right dr dc = (left, right) := by
      unfold adjust_cols; rw [if_neg (by omega), if_neg (by omega)]
    have hA₂ : adjust_rows top bot (-dr) = (top, bot + -dr) := by
      unfold adjust_rows; rw [if_neg (by omega), if_pos (by omega)]
    have hC₂ : adjust_cols left right (-dr) (-dc) = (left + -dc, right) := by
      unfold adjust_cols; rw [if_pos (by omega)]
    exact scroll_roundtrip_core hw h₁ h₂ hA₁ hC₁ hA₂ hC₂ i j
      ⟨by omega, by omega⟩ ⟨by omega, by omega⟩ ⟨by omega, by omega⟩ ⟨by omega, by omega⟩
      (by omega) (by omega) (by omega) (by omega)
  · -- 0 < dr, dc = 0
    have hA₁ : adjust_rows top bot dr = (top + dr, bot) := by
      unfold adjust_rows; rw [if_pos (by omega)]
    have hC₁ : adjust_cols left right dr dc = (left, right) := by
      unfold adjust_cols; rw [if_neg (by omega), if_neg (by omega)]
    have hA₂ : adjust_rows top bot (-dr) = (top, bot + -dr) := by
      unfold adjust_rows; rw [if_neg (by omega), if_pos (by omega)]
    have hC₂ : adjust_cols left right (-dr) (-dc) = (left, right + -dc) := by
      unfold adjust_cols; rw [if_neg (by omega), if_pos (by omega)]
    exact scroll_roundtrip_core hw h₁ h₂ hA₁ hC₁ hA₂ hC₂ i j
      ⟨by omega, by omega⟩ ⟨by omega, by omega⟩ ⟨by omega, by omega⟩ ⟨by omega, by omega⟩
      (by omega) (by omega) (by omega) (by omega)
  · -- 0 < dr, 0 < dc
    have hA₁ : adjust_rows top bot dr = (top + dr, bot) := by
      unfold adjust_rows; rw [if_pos (by omega)]
    have hC₁ : adjust_cols left right dr dc = (left + dc, right) := by
      unfold adjust_cols; rw [if_pos (by omega)]
    have hA₂ : adjust_rows top bot (-dr) = (top, bot + -dr) := by
      unfold adjust_rows; rw [if_neg (by omega), if_pos (by omega)]
    have hC₂ : adjust_cols left right (-dr) (-dc) = (left, right + -dc) := by
      unfold adjust_cols; rw [if_neg (by omega), if_pos (by omega)]
    exact scroll_roundtrip_core hw h₁ h₂ hA₁ hC₁ hA₂ hC₂ i j
      ⟨by omega, by omega⟩ ⟨by omega, by omega⟩ ⟨by omega, by omega⟩ ⟨by omega, by omega⟩
      (by omega) (by omega) (by omega) (by omega)

/-- **C2** (counterexample to the claim as stated).  Grid `[[A],[B],[C],[D]]`
(4 rows, 1 column), rectangle rows `[1, 3)`, deltas `(1, 0)` then `(-1, 0)`:
the source sub-rectangle (row 2) and the destination (row 1) lie fully inside
the grid and no write of either call is ever clamped at a grid edge, yet cell
`(1, 0)` — inside the scrolled rectangle — ends up holding `C` instead of its
original `B`.  So the round trip does not restore every never-clamped cell. -/
theorem c2_counterexample :
    scrollGrid [[cellA], [cellB], [cellC], [cellD]] 1 3 0 1 1 0 =
      some [[cellA], [cellC], [cellC], [cellD]] ∧
    scrollGrid [[cellA], [cellC], [cellC], [cellD]] 1 3 0 1 (-1) 0 =
      some [[cellA], [cellC], [cellC], [cellD]] ∧
    getc [[cellA], [cellC], [cellC], [cellD]] 1 0 ≠
      getc [[cellA], [cellB], [cellC], [cellD]] 1 0 := by
  refine ⟨by decide, by decide, by decide⟩

/-- **C2** (witness).  The round-trip theorem applied to the concrete grid
`[[A],[B],[C]]`, full-grid rectangle, deltas `(1, 0)` then `(-1, 0)`: cell
`(1, 0)` of the source sub-rectangle is restored. -/
theorem c2_witness :
    scrollGrid [[cellA], [cellB], [cellC]] 0 3 0 1 1 0 =
      some [[cellB], [cellC], [cellC]] ∧
    scrollGrid [[cellB], [cellC], [cellC]] 0 3 0 1 (-1) 0 =
      some [[cellB], [cellB], [cellC]] ∧
    getc [[cellB], [cellB], [cellC]] 1 0 = getc [[cellA], [cellB], [cellC]] 1 0 :=
  ⟨by decide, by decide,
    c2_scroll_roundtrip_restores_source
      [[cellA], [cellB], [cellC]] [[cellB], [cellC], [cellC]] [[cellB], [cellB], [cellC]]
      0 3 0 1 1 0 1
      (by decide) (by decide) (by decide) (by decide) (by decide) (by decide) (by decide)
      1 0 (by decide) (by decide)⟩

/-- **C1** (the code diverges from the claim).  With `rows = 0` and
`cols = -1` the spec's column rule yields source columns `[0, 1)`
(`right + cols = 1`), but the source's column adjustment — whose second
branch tests `rows < 0` instead of `cols < 0` — leaves the columns `[0, 2)`
unchanged.  On the 2-by-3 grid `[[A,B,E],[C,D,F]]` with rectangle columns
`[0, 2)` the call therefore also writes column 2, outside the rectangle:
the spec-rule result would leave column 2 as `[E, F]`. -/
theorem c1_column_adjust_follows_row_sign :
    adjust_cols 0 2 0 (-1) = (0, 2) ∧
    spec_adjust_cols 0 2 (-1) = (0, 1) ∧
    adjust_cols 0 2 0 (-1) ≠ spec_adjust_cols 0 2 (-1) ∧
    scrollGrid [[cellA, cellB, cellE], [cellC, cellD, cellF]] 0 2 0 2 0 (-1) =
      some [[cellA, cellA, cellB], [cellC, cellC, cellD]] := by
  refine ⟨by decide, by decide, by decide, by decide⟩

/-- **C10**.  The snapshot phase indexes the grid unchecked: a rectangle
whose adjusted source rows reach past the grid (`bot = 3` on a 2-row grid),
or whose `top` is negative, makes `scroll_region` panic (`none`).  Only
destination writes are clamped: with the source in bounds, a destination
extending past the grid (columns shifted right out of a 2-wide grid) is
silently skipped and the call succeeds. -/
theorem c10_source_unchecked_dest_clamped :
    scrollGrid [[cellA, cellB], [cellC, cellD]] 0 3 0 2 0 0 = none ∧
    scrollGrid [[cellA, cellB], [cellC, cellD]] (-1) 2 0 2 0 0 = none ∧
    scrollGrid [[cellA, cellB], [cellC, cellD]] 0 2 0 2 0 (-1) =
      some [[cellA, cellA], [cellC, cellC]] := by
  refine ⟨by decide, by decide, by decide⟩

/-! ## Pointwise description of the line-update applier -/

theorem writeText_get? :
    ∀ (text : List Char) (row : List GridCell) (style : Style) (cs j : Nat),
      (writeText row style cs text).get? j =
        if cs ≤ j ∧ j < cs + text.length ∧ j < row.length
        then (text.get? (j - cs)).map (fun ch => some (ch, style))
        else row.get? j := by
  intro text
  induction text with
  | nil =>
    intro row style cs j
    rw [if_neg]
    · rfl
    · intro hc
      obtain ⟨h1, h2, -⟩ := hc
      simp only [List.length_nil] at h2
      omega
  | cons ch rest ih =>
    intro row style cs j
    show (writeText (if cs < row.length then row.set cs (some (ch, style)) else row)
        style (cs + 1) rest).get? j = _
    rw [ih]
    simp only [List.length_cons]
    have hrl : (if cs < row.length then row.set cs (some (ch, style)) else row).length
        = row.length := by
      split <;> simp
    by_cases hmain : cs ≤ j ∧ j < cs + (rest.length + 1) ∧ j < row.length
    · rw [if_pos hmain]
      obtain ⟨h1, h2, h3⟩ := hmain
      by_cases hj : j = cs
      · subst hj
        rw [if_neg]
        · rw [if_pos h3, list_get?_set, if_pos ⟨rfl, h3⟩]
          have h0 : j - j = 0 := by omega
          rw [h0]
          rfl
        · intro hc
          obtain ⟨hc1, -⟩ := hc
          omega
      · rw [if_pos ⟨by omega, by omega, by rw [hrl]; omega⟩]
        have hidx : j - cs = (j - (cs + 1)) + 1 := by omega
        rw [hidx]
        rfl
    · rw [if_neg hmain, if_neg]
      · split
        · rename_i hlt
          rw [list_get?_set, if_neg]
          intro hc
          obtain ⟨hc1, hc2⟩ := hc
          exact hmain ⟨by omega, by omega, by omega⟩
        · rfl
      · intro hc
        obtain ⟨hc1, hc2, hc3⟩ := hc
        rw [hrl] at hc3
        exact hmain ⟨by omega, by omega, hc3⟩

theorem draw_oob {e : Editor} {cmd : GridLineCell} {style : Style}
    (hs : e.resolve_style cmd.style_id = some style)
    (hrow : ¬ cmd.row < e.grid.length) :
    e.draw cmd = some ({ e with previous_style := some style }, true) := by
  simp only [Editor.draw, hs]
  rw [if_neg hrow]

theorem draw_inb {e : Editor} {cmd : GridLineCell} {style : Style} {row : List GridCell}
    (hs : e.resolve_style cmd.style_id = some style)
    (hrow : e.grid.get? cmd.row = some row) :
    e.draw cmd =
      some ({ e with
                grid := e.grid.set cmd.row (writeText row style cmd.col_start cmd.text),
                previous_style := some style }, false) := by
  obtain ⟨hlt, -⟩ := List.get?_eq_some.1 hrow
  simp only [Editor.draw, hs, hrow]
  rw [if_pos hlt]

/-- Full behavioural description of a `draw` call whose style resolution
succeeds: it never panics, records the resolved style as the new previous
style (whether or not the row was in bounds), fires the diagnostic exactly
when the row is out of bounds (leaving the grid unchanged), touches no other
row, and on the target row overwrites exactly the in-bounds columns of the
text run, silently skipping the rest. -/
theorem draw_spec (e : Editor) (cmd : GridLineCell) (style : Style)
    (hs : e.resolve_style cmd.style_id = some style) :
    ∃ e' diag, e.draw cmd = some (e', diag) ∧
      e'.previous_style = some style ∧
      e'.size = e.size ∧
      e'.default_colors = e.default_colors ∧
      e'.defined_styles = e.defined_styles ∧
      (cmd.row < e.grid.length → diag = false) ∧
      (e.grid.length ≤ cmd.row → diag = true ∧ e'.grid = e.grid) ∧
      (∀ ri, ri ≠ cmd.row → e'.grid.get? ri = e.grid.get? ri) ∧
      (∀ j : Nat,
        getc e'.grid cmd.row j =
          if cmd.col_start ≤ j ∧ j < cmd.col_start + cmd.text.length ∧
              (getc e.grid cmd.row j).isSome
          then (cmd.text.get? (j - cmd.col_start)).map (fun ch => some (ch, style))
          else getc e.grid cmd.row j) := by
  by_cases hlt : cmd.row < e.grid.length
  · cases hrow : e.grid.get? cmd.row with
    | none => exact absurd (List.get?_eq_none.1 hrow) (by omega)
    | some row =>
      refine ⟨_, false, draw_inb hs hrow, rfl, rfl, rfl, rfl, fun _ => rfl,
        fun hge => absurd hlt (by omega), ?_, ?_⟩
      · intro ri hri
        show (e.grid.set cmd.row _).get? ri = e.grid.get? ri
        rw [list_get?_set, if_neg]
        intro hc
        exact hri hc.1.symm
      · intro j
        show getc (e.grid.set cmd.row (writeText row style cmd.col_start cmd.text)) cmd.row j = _
        rw [getc_set_row, if_pos ⟨rfl, hlt⟩, writeText_get?]
        by_cases hj : cmd.col_start ≤ j ∧ j < cmd.col_start + cmd.text.length ∧ j < row.length
        · rw [if_pos hj, if_pos ⟨hj.1, hj.2.1, getc_isSome_intro hrow hj.2.2⟩]
        · rw [if_neg hj, if_neg, getc_of_row hrow]
          intro hc
          obtain ⟨hc1, hc2, hc3⟩ := hc
          obtain ⟨row', hrow', hjlt⟩ := getc_isSome_elim hc3
          rw [hrow] at hrow'
          have he : row = row' := by injection hrow'
          exact hj ⟨hc1, hc2, by rw [he]; exact hjlt⟩
  · refine ⟨_, true, draw_oob hs hlt, rfl, rfl, rfl, rfl,
      fun h => absurd h hlt, fun _ => ⟨rfl, rfl⟩, fun _ _ => rfl, ?_⟩
    intro j
    rw [if_neg]
    intro hc
    obtain ⟨-, -, hc3⟩ := hc
    obtain ⟨row', hrow', -⟩ := getc_isSome_elim hc3
    obtain ⟨hlt', -⟩ := List.get?_eq_some.1 hrow'
    exact hlt hlt'

theorem resolve_style_zero (e : Editor) :
    e.resolve_style (some 0) = some (Style.new e.default_colors) := rfl

theorem resolve_style_succ (e : Editor) (n : Nat) :
    e.resolve_style (some (n + 1)) = e.defined_styles (n + 1) := rfl

theorem resolve_style_prev (e : Editor) {p : Style} (h : e.previous_style = some p) :
    e.resolve_style none = some p := by
  simp only [Editor.resolve_style, h]

/-- Style resolution succeeds whenever the update carries no style id, the
id `0`, or an id present in the registry. -/
theorem resolve_style_isSome (e : Editor) (sid? : Option Nat)
    (h : sid? = none ∨ sid? = some 0 ∨
      ∃ sid st, sid? = some sid ∧ e.defined_styles sid = some st) :
    ∃ style, e.resolve_style sid? = some style := by
  rcases h with h | h | ⟨sid, st, h, hst⟩
  · subst h
    cases hp : e.previous_style with
    | none => exact ⟨Style.new e.default_colors, by simp only [Editor.resolve_style, hp]⟩
    | some p => exact ⟨p, resolve_style_prev e hp⟩
  · subst h
    exact ⟨Style.new e.default_colors, resolve_style_zero e⟩
  · subst h
    cases sid with
    | zero => exact ⟨Style.new e.default_colors, resolve_style_zero e⟩
    | succ n => exact ⟨st, by rw [resolve_style_succ, hst]⟩

/-- A successful `draw` records exactly the resolved style as the session's
new previous style. -/
theorem draw_previous_style {e : Editor} {cmd : GridLineCell} {e' : Editor} {diag : Bool}
    (h : e.draw cmd = some (e', diag)) :
    ∃ s, e.resolve_style cmd.style_id = some s ∧ e'.previous_style = some s := by
  cases hres : e.resolve_style cmd.style_id with
  | none =>
    simp only [Editor.draw, hres] at h
    exact absurd h (by simp)
  | some s =>
    refine ⟨s, rfl, ?_⟩
    simp only [Editor.draw, hres] at h
    split at h
    · split at h
      · injection h with hp
        have he : _ = e' := congrArg Prod.fst hp
        rw [← he]
      · exact absurd h (by simp)
    · injection h with hp
      have he : _ = e' := congrArg Prod.fst hp
      rw [← he]

/-- **C5**.  A successful draw — any draw, also one whose target row was out
of bounds so that no cell was written — records the style it resolved as the
session's previous style, and a draw with no style id that immediately
follows writes its cells with exactly that style (structural, field-for-field
equality), whatever row it targets. -/
theorem c5_previous_style_carryover (e : Editor) (cmd₁ : GridLineCell) (sid : Nat)
    (hsid : cmd₁.style_id = some sid)
    (e₁ : Editor) (diag₁ : Bool) (h₁ : e.draw cmd₁ = some (e₁, diag₁))
    (cmd₂ : GridLineCell) (hnone : cmd₂.style_id = none) :
    ∃ s, e.resolve_style cmd₁.style_id = some s ∧
      e₁.previous_style = some s ∧
      ∃ e₂ diag₂, e₁.draw cmd₂ = some (e₂, diag₂) ∧
        e₂.previous_style = some s ∧
        ∀ i ch, cmd₂.text.get? i = some ch →
          (getc e₁.grid cmd₂.row (cmd₂.col_start + i)).isSome →
          getc e₂.grid cmd₂.row (cmd₂.col_start + i) = some (some (ch, s)) := by
  obtain ⟨s, hres₁, hprev₁⟩ := draw_previous_style h₁
  have hres₂ : e₁.resolve_style cmd₂.style_id = some s := by
    rw [hnone]
    exact resolve_style_prev e₁ hprev₁
  obtain ⟨e₂, diag₂, hdraw₂, hprev₂, -, -, -, -, -, -, hpt⟩ := draw_spec e₁ cmd₂ s hres₂
  refine ⟨s, hres₁, hprev₁, e₂, diag₂, hdraw₂, hprev₂, ?_⟩
  intro i ch hch hsome
  obtain ⟨hilt, -⟩ := List.get?_eq_some.1 hch
  have hp := hpt (cmd₂.col_start + i)
  rw [if_pos ⟨by omega, by omega, hsome⟩] at hp
  have hidx : cmd₂.col_start + i - cmd₂.col_start = i := by omega
  rw [hidx, hch] at hp
  exact hp

/-- **C6**.  A draw carrying style id `0` resolves to a fresh default style
built purely from the current default colors — every attribute flag `false`,
blend `0` — regardless of the registry contents (including an entry a host
may have stored under id `0`), records it as the previous style, and writes
it into every affected cell. -/
theorem c6_style_zero_fresh_default (e : Editor) (cmd : GridLineCell)
    (hsid : cmd.style_id = some 0) :
    e.resolve_style cmd.style_id = some (Style.new e.default_colors) ∧
    (∀ styles : Nat → Option Style,
      Editor.resolve_style { e with defined_styles := styles } cmd.style_id =
        some (Style.new e.default_colors)) ∧
    Style.new e.default_colors =
      { colors := e.default_colors, reverse := false, italic := false, bold := false,
        strikethrough := false, underline := false, undercurl := false, blend := 0 } ∧
    ∃ e' diag, e.draw cmd = some (e', diag) ∧
      e'.previous_style = some (Style.new e.default_colors) ∧
      ∀ i ch, cmd.text.get? i = some ch →
        (getc e.grid cmd.row (cmd.col_start + i)).isSome →
        getc e'.grid cmd.row (cmd.col_start + i) =
          some (some (ch, Style.new e.default_colors)) := by
  have hres : e.resolve_style cmd.style_id = some (Style.new e.default_colors) := by
    rw [hsid]
    exact resolve_style_zero e
  refine ⟨hres, ?_, rfl, ?_⟩
  · intro styles
    rw [hsid]
    exact resolve_style_zero _
  · obtain ⟨e', diag, hdraw, hprev, -, -, -, -, -, -, hpt⟩ := draw_spec e cmd _ hres
    refine ⟨e', diag, hdraw, hprev, ?_⟩
    intro i ch hch hsome
    obtain ⟨hilt, -⟩ := List.get?_eq_some.1 hch
    have hp := hpt (cmd.col_start + i)
    rw [if_pos ⟨by omega, by omega, hsome⟩] at hp
    have hidx : cmd.col_start + i - cmd.col_start = i := by omega
    rw [hidx, hch] at hp
    exact hp

/-- **C7** (amended).  Provided its style id resolves (absent, zero, or
defined in the registry), a draw never panics; with the target row at or
beyond the grid's row count it leaves the grid unchanged and fires the
diagnostic; within an in-bounds row it touches no other row, writes the
in-bounds characters, and silently skips characters whose column falls
outside the row. -/
theorem c7_out_of_bounds_update_dropped (e : Editor) (cmd : GridLineCell)
    (hres : cmd.style_id = none ∨ cmd.style_id = some 0 ∨
      ∃ sid st, cmd.style_id = some sid ∧ e.defined_styles sid = some st) :
    ∃ style e' diag, e.resolve_style cmd.style_id = some style ∧
      e.draw cmd = some (e', diag) ∧
      (e.grid.length ≤ cmd.row → e'.grid = e.grid ∧ diag = true) ∧
      (cmd.row < e.grid.length → diag = false ∧
        (∀ ri, ri ≠ cmd.row → e'.grid.get? ri = e.grid.get? ri) ∧
        ∀ i ch, cmd.text.get? i = some ch →
          ((getc e.grid cmd.row (cmd.col_start + i)).isSome →
            getc e'.grid cmd.row (cmd.col_start + i) = some (some (ch, style))) ∧
          (¬ (getc e.grid cmd.row (cmd.col_start + i)).isSome →
            getc e'.grid cmd.row (cmd.col_start + i) =
              getc e.grid cmd.row (cmd.col_start + i))) := by
  obtain ⟨style, hstyle⟩ := resolve_style_isSome e cmd.style_id hres
  obtain ⟨e', diag, hdraw, hprev, -, -, -, hdiag_in, hoob, hother, hpt⟩ :=
    draw_spec e cmd style hstyle
  refine ⟨style, e', diag, hstyle, hdraw,
    fun hge => ⟨(hoob hge).2, (hoob hge).1⟩,
    fun hlt => ⟨hdiag_in hlt, hother, ?_⟩⟩
  intro i ch hch
  obtain ⟨hilt, -⟩ := List.get?_eq_some.1 hch
  constructor
  · intro hsome
    have hp := hpt (cmd.col_start + i)
    rw [if_pos ⟨by omega, by omega, hsome⟩] at hp
    have hidx : cmd.col_start + i - cmd.col_start = i := by omega
    rw [hidx, hch] at hp
    exact hp
  · intro hns
    have hp := hpt (cmd.col_start + i)
    rw [if_neg] at hp
    · exact hp
    · intro hc
      exact hns hc.2.2

/-- **C9**.  A draw carrying a non-zero style id that was never defined in
the registry panics (the `expect` on the registry lookup): an unrecoverable
protocol violation, not handled locally. -/
theorem c9_undefined_style_id_fatal (e : Editor) (cmd : GridLineCell) (sid : Nat)
    (hsid : cmd.style_id = some sid) (hnz : sid ≠ 0)
    (hundef : e.defined_styles sid = none) :
    e.draw cmd = none := by
  have hres : e.resolve_style cmd.style_id = none := by
    rw [hsid]
    cases sid with
    | zero => exact absurd rfl hnz
    | succ n =>
      rw [resolve_style_succ]
      exact hundef
  simp only [Editor.draw, hres]

/-- **C5** (witness).  `editorS`, a draw with explicit style id `7` on the
out-of-bounds row `5`, then a style-less draw on row `0`. -/
theorem c5_witness :
    ∃ s, editorS.resolve_style (some 7) = some s ∧
      ({ editorS with previous_style := some style1 } : Editor).previous_style = some s ∧
      ∃ e₂ diag₂,
        ({ editorS with previous_style := some style1 } : Editor).draw
          ⟨1, ['B'], 0, 1, none⟩ = some (e₂, diag₂) ∧
        e₂.previous_style = some s ∧
        ∀ i ch, (['B'] : List Char).get? i = some ch →
          (getc ({ editorS with previous_style := some style1 } : Editor).grid
            0 (1 + i)).isSome →
          getc e₂.grid 0 (1 + i) = some (some (ch, s)) :=
  c5_previous_style_carryover editorS ⟨1, ['A'], 5, 0, some 7⟩ 7 rfl
    { editorS with previous_style := some style1 } true rfl ⟨1, ['B'], 0, 1, none⟩ rfl

/-- **C6** (witness).  `editorZ` keeps a registry entry under id `0`; a draw
with style id `0` still resolves to the fresh default style. -/
theorem c6_witness :
    editorZ.resolve_style (some 0) = some (Style.new editorZ.default_colors) ∧
    (∀ styles : Nat → Option Style,
      Editor.resolve_style { editorZ with defined_styles := styles } (some 0) =
        some (Style.new editorZ.default_colors)) ∧
    Style.new editorZ.default_colors =
      { colors := editorZ.default_colors, reverse := false, italic := false, bold := false,
        strikethrough := false, underline := false, undercurl := false, blend := 0 } ∧
    ∃ e' diag, editorZ.draw ⟨1, ['X'], 0, 0, some 0⟩ = some (e', diag) ∧
      e'.previous_style = some (Style.new editorZ.default_colors) ∧
      ∀ i ch, (['X'] : List Char).get? i = some ch →
        (getc editorZ.grid 0 (0 + i)).isSome →
        getc e'.grid 0 (0 + i) = some (some (ch, Style.new editorZ.default_colors)) :=
  c6_style_zero_fresh_default editorZ ⟨1, ['X'], 0, 0, some 0⟩ rfl

/-- **C7** (counterexample to the claim as stated).  A draw whose target row
(`9`) is far beyond the grid's single row nonetheless panics, because its
style id `5` is resolved — and its registry lookup `expect`s — before the
row-bounds check.  So "a draw whose target row is out of bounds does not
crash" is false without a proviso on the style id. -/
theorem c7_counterexample : editorS.draw ⟨1, ['A'], 9, 0, some 5⟩ = none := rfl

/-- **C7** (witness).  A style-less draw on out-of-bounds row `9` of
`editorS`: no panic, grid unchanged, diagnostic fired. -/
theorem c7_witness :
    ∃ style e' diag, editorS.resolve_style none = some style ∧
      editorS.draw ⟨1, ['A'], 9, 0, none⟩ = some (e', diag) ∧
      (editorS.grid.length ≤ 9 → e'.grid = editorS.grid ∧ diag = true) ∧
      (9 < editorS.grid.length → diag = false ∧
        (∀ ri, ri ≠ 9 → e'.grid.get? ri = editorS.grid.get? ri) ∧
        ∀ i ch, (['A'] : List Char).get? i = some ch →
          ((getc editorS.grid 9 (0 + i)).isSome →
            getc e'.grid 9 (0 + i) = some (some (ch, style))) ∧
          (¬ (getc editorS.grid 9 (0 + i)).isSome →
            getc e'.grid 9 (0 + i) = getc editorS.grid 9 (0 + i))) :=
  c7_out_of_bounds_update_dropped editorS ⟨1, ['A'], 9, 0, none⟩ (Or.inl rfl)

/-- **C9** (witness).  Style id `5` is not in `editorS`'s registry: the draw
panics. -/
theorem c9_witness : editorS.draw ⟨1, ['A'], 0, 0, some 5⟩ = none :=
  c9_undefined_style_id_fatal editorS ⟨1, ['A'], 0, 0, some 5⟩ 5 rfl (by decide) rfl

theorem list_get?_replicate {α : Type _} (a : α) :
    ∀ n k, k < n → (List.replicate n a).get? k = some a := by
  intro n
  induction n with
  | zero => intro k hk; omega
  | succ n ih =>
    intro k hk
    cases k with
    | zero => rfl
    | succ k => exact ih k (by omega)

/-- **C4** (amended).  `clear()` replaces the grid with an all-empty matrix
of the currently recorded size, but the previous style — like every other
field — is left unchanged, not dropped. -/
theorem c4_clear_grid_emptied_previous_style_kept (e : Editor) :
    (e.clear).grid = List.replicate e.size.2 (List.replicate e.size.1 none) ∧
    (e.clear).grid.length = e.size.2 ∧
    (∀ row ∈ (e.clear).grid, row.length = e.size.1) ∧
    (∀ i j, i < e.size.2 → j < e.size.1 → getc (e.clear).grid i j = some none) ∧
    (e.clear).previous_style = e.previous_style ∧
    (e.clear).size = e.size ∧
    (e.clear).default_colors = e.default_colors ∧
    (e.clear).defined_styles = e.defined_styles ∧
    (e.clear).cursor_pos = e.cursor_pos := by
  refine ⟨rfl, by simp [Editor.clear], ?_, ?_, rfl, rfl, rfl, rfl, rfl⟩
  · intro row hrow
    rw [List.eq_of_mem_replicate hrow]
    simp
  · intro i j hi hj
    show ((List.replicate e.size.2 (List.replicate e.size.1 none)).get? i).bind
      (fun row => row.get? j) = some none
    rw [list_get?_replicate _ _ _ hi]
    show (List.replicate e.size.1 none).get? j = some none
    exact list_get?_replicate _ _ _ hj

/-- **C4** (counterexample to the claim as stated).  `editorP` holds a
previous style; after `clear()` it is still there — it is not reset to
`none` as the claim states. -/
theorem c4_counterexample :
    (editorP.clear).previous_style = some style1 ∧
    (editorP.clear).previous_style ≠ none :=
  ⟨rfl, by decide⟩

/-- **C8** (amended).  When the host rejects the resize, the call panics
(the `expect` on `ui_try_resize`): the failure is fatal, no editor state
survives the call — in particular no state with an updated size.  Only a
host-confirmed resize updates the recorded size. -/
theorem c8_resize_reject_is_fatal (e : Editor) (new_width new_height : Nat) :
    e.resize new_width new_height false = none ∧
    e.resize new_width new_height true = some { e with size := (new_width, new_height) } :=
  ⟨rfl, rfl⟩

/-- **C8** (counterexample to the claim as stated).  A rejected resize does
not return to the caller at all (it panics), so the operation is not
non-fatal and no failure notification with an unchanged size is produced. -/
theorem c8_counterexample :
    editorP.resize 5 5 false = none ∧
    (editorP.resize 5 5 false).isSome = false :=
  ⟨rfl, rfl⟩

theorem add_command_eq (l : List DrawCommand) (c? : Option DrawCommand) :
    add_command l c? = l ++ c?.toList := by
  cases c? <;> simp [add_command]

theorem covers_single (ri : Nat) (row : List GridCell) (n : Nat) (ch : Char) (stl : Style)
    (hcell : row.get? n = some (some (ch, stl))) :
    covers ri row (DrawCommand.mk [ch] ri n stl) := by
  refine ⟨rfl, by simp, ?_⟩
  intro k ch' hk
  cases k with
  | zero =>
    have hch : ch = ch' := by
      have : some ch = some ch' := hk
      injection this
    subst hch
    simpa using hcell
  | succ k => simp at hk

theorem covers_extend (ri : Nat) (row : List GridCell) (n : Nat) (ch : Char)
    (c : DrawCommand) (hcov : covers ri row c)
    (hend : c.col_start + c.text.length = n)
    (hcell : row.get? n = some (some (ch, c.style))) :
    covers ri row { c with text := c.text ++ [ch] } := by
  obtain ⟨h1, h2, h3⟩ := hcov
  refine ⟨h1, by simp, ?_⟩
  intro k ch' hk
  rcases lt_trichotomy k c.text.length with hlt | heq | hgt
  · rw [List.get?_append hlt] at hk
    exact h3 k ch' hk
  · subst heq
    rw [List.get?_concat_length] at hk
    have hch : ch = ch' := by injection hk
    subst hch
    show row.get? (c.col_start + c.text.length) = _
    rw [hend]
    exact hcell
  · rw [List.get?_eq_none.2 (by simp; omega)] at hk
    exact absurd hk (by simp)

/-- One scan step preserves the invariant. -/
theorem scanInv_step (ri : Nat) (row : List GridCell) (n : Nat) (cell : GridCell)
    (hcell : row.get? n = some cell)
    (st : List DrawCommand × Option DrawCommand)
    (hinv : scanInv ri row n st) :
    scanInv ri row (n + 1) (rowStep ri st (n, cell)) := by
  obtain ⟨hcov, hchain, hcur, hnone⟩ := hinv
  cases cell with
  | none =>
    show scanInv ri row (n + 1) (add_command st.1 st.2, none)
    refine ⟨?_, ?_, ?_, ?_⟩
    · intro c hc
      rw [add_command_eq] at hc
      simp only [Option.toList_none, List.append_nil] at hc
      obtain ⟨h1, h2⟩ := hcov c hc
      exact ⟨h1, by omega⟩
    · show List.Chain' (sep row) (add_command st.1 st.2 ++ (none : Option DrawCommand).toList)
      rw [add_command_eq]
      simpa using hchain
    · intro c hc
      exact absurd hc (by simp)
    · intro _ d hd
      rw [add_command_eq] at hd
      cases hc2 : st.2 with
      | some c =>
        rw [hc2] at hd
        simp only [Option.toList_some] at hd
        rw [List.getLast?_concat] at hd
        have hdc : d = c := by
          have := hd
          simp only [Option.mem_def, Option.some.injEq] at this
          exact this.symm
        subst hdc
        have hend := hcur d hc2
        exact ⟨by omega, by rw [hend]; exact hcell⟩
      | none =>
        rw [hc2] at hd
        simp only [Option.toList_none, List.append_nil] at hd
        obtain ⟨h1, h2⟩ := hnone hc2 d hd
        exact ⟨by omega, h2⟩
  | some p =>
    obtain ⟨ch, stl⟩ := p
    by_cases hm : command_matches st.2 stl
    · have hred : rowStep ri st (n, some (ch, stl)) = (st.1, add_character st.2 ch ri n stl) := by
        simp [rowStep, hm]
      rw [hred]
      cases hc2 : st.2 with
      | none =>
        have hlast := hnone hc2
        show scanInv ri row (n + 1) (st.1, some (DrawCommand.mk [ch] ri n stl))
        rw [hc2] at hcov hchain
        simp only [Option.toList_none, List.append_nil] at hcov hchain
        have hnew : covers ri row (DrawCommand.mk [ch] ri n stl) :=
          covers_single ri row n ch stl hcell
        refine ⟨?_, ?_, ?_, ?_⟩
        · intro c hc
          simp only [Option.toList_some, List.mem_append, List.mem_singleton] at hc
          cases hc with
          | inl h =>
            obtain ⟨h1, h2⟩ := hcov c h
            exact ⟨h1, by omega⟩
          | inr h =>
            subst h
            exact ⟨hnew, by simp⟩
        · show List.Chain' (sep row) (st.1 ++ [DrawCommand.mk [ch] ri n stl])
          rw [List.chain'_append]
          refine ⟨hchain, List.chain'_singleton _, ?_⟩
          intro x hx y hy
          simp only [List.head?_cons, Option.mem_def, Option.some.injEq] at hy
          subst hy
          obtain ⟨h1, h2⟩ := hlast x hx
          exact Or.inr ⟨h1, h2⟩
        · intro c hc
          have : DrawCommand.mk [ch] ri n stl = c := by injection hc
          subst this
          simp
        · intro h
          exact absurd h (by simp)
      | some c =>
        have hstl : c.style = stl := by
          have : decide (c.style = stl) = true := by
            simpa [command_matches, hc2] using hm
          exact of_decide_eq_true this
        have hend := hcur c hc2
        show scanInv ri row (n + 1) (st.1, some { c with text := c.text ++ [ch] })
        rw [hc2] at hcov hchain
        simp only [Option.toList_some] at hcov hchain
        have hcovc : covers ri row c := (hcov c (by simp)).1
        have hnew : covers ri row { c with text := c.text ++ [ch] } :=
          covers_extend ri row n ch c hcovc hend (by rw [hstl]; exact hcell)
        refine ⟨?_, ?_, ?_, ?_⟩
        · intro d hd
          simp only [Option.toList_some, List.mem_append, List.mem_singleton] at hd
          cases hd with
          | inl h =>
            obtain ⟨h1, h2⟩ := hcov d (by simp [h])
            exact ⟨h1, by omega⟩
          | inr h =>
            subst h
            refine ⟨hnew, ?_⟩
            simp only [List.length_append, List.length_cons, List.length_nil]
            omega
        · show List.Chain' (sep row) (st.1 ++ [{ c with text := c.text ++ [ch] }])
          rw [List.chain'_append] at hchain ⊢
          obtain ⟨h1, -, h3⟩ := hchain
          refine ⟨h1, List.chain'_singleton _, ?_⟩
          intro x hx y hy
          simp only [List.head?_cons, Option.mem_def, Option.some.injEq] at hy
          subst hy
          exact h3 x hx c (by simp)
        · intro d hd
          have : { c with text := c.text ++ [ch] } = d := by injection hd
          subst this
          simp only [List.length_append, List.length_cons, List.length_nil]
          omega
        · intro h
          exact absurd h (by simp)
    · -- style mismatch: st.2 must be some c with c.style ≠ stl
      cases hc2 : st.2 with
      | none => exact absurd (by simp [command_matches, hc2]) hm
      | some c =>
        have hstl : c.style ≠ stl := by
          intro he
          exact hm (by simp [command_matches, hc2, he])
        have hend := hcur c hc2
        have hred : rowStep ri st (n, some (ch, stl)) =
            (add_command st.1 st.2, some (DrawCommand.mk [ch] ri n stl)) := by
          simp [rowStep, hm, add_character]
        rw [hred, add_command_eq, hc2]
        simp only [Option.toList_some]
        rw [hc2] at hcov hchain
        simp only [Option.toList_some] at hcov hchain
        have hnew : covers ri row (DrawCommand.mk [ch] ri n stl) :=
          covers_single ri row n ch stl hcell
        refine ⟨?_, ?_, ?_, ?_⟩
        · intro d hd
          simp only [Option.toList_some, List.mem_append, List.mem_singleton] at hd
          rcases hd with (h | h) | h
          · obtain ⟨h1, h2⟩ := hcov d (by simp [h])
            exact ⟨h1, by omega⟩
          · subst h
            obtain ⟨h1, h2⟩ := hcov d (by simp)
            exact ⟨h1, by omega⟩
          · subst h
            exact ⟨hnew, by simp⟩
        · show List.Chain' (sep row) ((st.1 ++ [c]) ++ [DrawCommand.mk [ch] ri n stl])
          rw [List.chain'_append]
          refine ⟨hchain, List.chain'_singleton _, ?_⟩
          intro x hx y hy
          simp only [List.head?_cons, Option.mem_def, Option.some.injEq] at hy
          subst hy
          rw [List.getLast?_concat] at hx
          have hxc : x = c := by
            have := hx
            simp only [Option.mem_def, Option.some.injEq] at this
            exact this.symm
          subst hxc
          exact Or.inl ⟨hend, hstl⟩
        · intro d hd
          have : DrawCommand.mk [ch] ri n stl = d := by injection hd
          subst this
          simp
        · intro h
          exact absurd h (by simp)

/-- Folding the scan over a suffix of the row preserves the invariant. -/
theorem scanInv_foldl (ri : Nat) (row : List GridCell) :
    ∀ (l : List GridCell) (n : Nat) (st : List DrawCommand × Option DrawCommand),
      (∀ k, l.get? k = row.get? (n + k)) →
      scanInv ri row n st →
      scanInv ri row (n + l.length) (List.foldl (rowStep ri) st (l.enumFrom n)) := by
  intro l
  induction l with
  | nil =>
    intro n st hsub hinv
    simpa using hinv
  | cons cell rest ih =>
    intro n st hsub hinv
    have hcell : row.get? n = some cell := by
      have h0 := hsub 0
      simpa using h0.symm
    have hstep := scanInv_step ri row n cell hcell st hinv
    have hsub' : ∀ k, rest.get? k = row.get? (n + 1 + k) := by
      intro k
      have hk := hsub (k + 1)
      have hnk : n + (k + 1) = n + 1 + k := by omega
      rw [hnk] at hk
      exact hk
    have hres := ih (n + 1) (rowStep ri st (n, cell)) hsub' hstep
    have heq : n + (rest.length + 1) = n + 1 + rest.length := by omega
    show scanInv ri row (n + (cell :: rest).length)
      (List.foldl (rowStep ri) (rowStep ri st (n, cell)) (rest.enumFrom (n + 1)))
    simp only [List.length_cons]
    rw [heq]
    exact hres

/-- The emitted command list of one row satisfies the scan invariant's final
consequences: `sep`-chained and content-reproducing. -/
theorem buildRowCommands_spec (ri : Nat) (row : List GridCell) :
    List.Chain' (sep row) (buildRowCommands ri row) ∧
    ∀ c ∈ buildRowCommands ri row, covers ri row c := by
  have h0 : scanInv ri row 0 ([], none) := by
    refine ⟨?_, ?_, ?_, ?_⟩
    · intro c hc
      simp at hc
    · simp
    · intro c hc
      exact absurd hc (by simp)
    · intro _ d hd
      simp at hd
  have hfold := scanInv_foldl ri row row 0 ([], none) (by intro k; rw [Nat.zero_add]) h0
  obtain ⟨hcov, hchain, -, -⟩ := hfold
  have hbrc : buildRowCommands ri row =
      (List.foldl (rowStep ri) ([], none) (row.enumFrom 0)).1 ++
        (List.foldl (rowStep ri) ([], none) (row.enumFrom 0)).2.toList := by
    show add_command _ _ = _
    rw [add_command_eq]
    rfl
  rw [hbrc]
  exact ⟨hchain, fun c hc => (hcov c hc).1⟩

/-- **C3** (amended).  The output of `build_draw_commands` is the
row-by-row concatenation of the per-row scans, and within any single row:
two adjacent emitted commands either abut with *different* styles or are
separated by a gap whose first column is an empty cell (adjacent same-style
commands arise only across such empty-cell gaps); every column covered by an
emitted command holds a non-empty cell of exactly the command's style — so no
command spans an empty cell, and in particular two consecutive empty cells
never give rise to any command. -/
theorem c3_compaction_minimal (grid : List (List GridCell)) :
    build_draw_commands grid =
      (grid.enum.map (fun p => buildRowCommands p.1 p.2)).flatten ∧
    ∀ ri row, grid.get? ri = some row →
      List.Chain' (sep row) (buildRowCommands ri row) ∧
      ∀ c ∈ buildRowCommands ri row,
        c.row = ri ∧
        c.text ≠ [] ∧
        ∀ j, c.col_start ≤ j → j < c.col_start + c.text.length →
          ∃ ch, row.get? j = some (some (ch, c.style)) := by
  refine ⟨rfl, ?_⟩
  intro ri row _
  obtain ⟨hchain, hcov⟩ := buildRowCommands_spec ri row
  refine ⟨hchain, ?_⟩
  intro c hc
  obtain ⟨hcr, hct, hcc⟩ := hcov c hc
  refine ⟨hcr, hct, ?_⟩
  intro j hj1 hj2
  have hk : j - c.col_start < c.text.length := by omega
  have hch : c.text.get? (j - c.col_start) = some (c.text.get ⟨j - c.col_start, hk⟩) :=
    List.get?_eq_get hk
  have hcell := hcc (j - c.col_start) _ hch
  refine ⟨c.text.get ⟨j - c.col_start, hk⟩, ?_⟩
  rw [show c.col_start + (j - c.col_start) = j from by omega] at hcell
  exact hcell

/-- **C3** (counterexample to the claim as stated).  The row
`[A(style0), empty, B(style0)]` compacts to two *adjacent* commands with
*equal* style — they cannot be merged across the empty cell — refuting
"no two adjacent emitted commands have equal style". -/
theorem c3_counterexample :
    build_draw_commands [[cellA, cellN, cellB]] =
      [DrawCommand.mk ['A'] 0 0 style0, DrawCommand.mk ['B'] 0 2 style0] ∧
    (DrawCommand.mk ['A'] 0 0 style0).style = (DrawCommand.mk ['B'] 0 2 style0).style := by
  exact ⟨by decide, rfl⟩

/-- **C3** (witness).  The amended theorem applied to the concrete grid
`[[A(style0), B(style1)]]`. -/
theorem c3_witness :
    List.Chain' (sep [cellA, some ('B', style1)])
      (buildRowCommands 0 [cellA, some ('B', style1)]) ∧
    ∀ c ∈ buildRowCommands 0 [cellA, some ('B', style1)],
      c.row = 0 ∧
      c.text ≠ [] ∧
      ∀ j, c.col_start ≤ j → j < c.col_start + c.text.length →
        ∃ ch, ([cellA, some ('B', style1)] : List GridCell).get? j =
          some (some (ch, c.style)) :=
  (c3_compaction_minimal [[cellA, some ('B', style1)]]).2 0
    [cellA, some ('B', style1)] rfl
